import Mathlib

/-!
Shallow embedding of `scraper_careers.py` (async career/contact page finder and
email extractor) and proofs about the claims of the specification.

Modelling conventions:
* Python strings are modelled as `List Char` (`Str`), compared by code points,
  which is exactly the string ordering of Python.  ASCII lowercasing models
  `str.lower()`; the characters relevant to every claim (email characters,
  keywords, obfuscation markers) are ASCII.
* External collaborators (the DDGS search provider, the httpx HTTP client and
  the BeautifulSoup markup parser) are passed in as oracle functions, as the
  spec prescribes ("Excluded (treated as external collaborators)").  All code
  of `scraper_careers.py` itself is translated below.
* `asyncio.gather` preserves the order of the awaited task list, so the
  concurrent fan-out of `probe_domain`/`scrape_careers` is modelled by `map`
  over the same list the source builds.  The semaphore of line 74 is modelled
  separately as a transition system (see the concurrency section).
-/

/-- Python strings, as lists of code points. -/
abbrev Str := List Char

/-- The 26 ASCII upper/lower case pairs, used to model `str.lower()`. -/
def caseTable : List (Char × Char) :=
  "ABCDEFGHIJKLMNOPQRSTUVWXYZ".data.zip "abcdefghijklmnopqrstuvwxyz".data

/-- ASCII lowercasing of one character (model of `str.lower()` per char). -/
def lowerChar (c : Char) : Char :=
  match caseTable.find? (fun p => p.1 == c) with
  | some p => p.2
  | none => c

/-- Model of Python `str.lower()` (ASCII fragment). -/
def pyLower (l : Str) : Str := l.map lowerChar

/-- Model of Python `str.strip()`: drop leading and trailing whitespace. -/
def pyTrim (l : Str) : Str :=
  ((l.dropWhile Char.isWhitespace).reverse.dropWhile Char.isWhitespace).reverse

/-- Helper for `pySplitOn`, with fuel bounded by the length of the input. -/
def splitOnAux (sep : Str) : Nat → Str → Str → List Str
  | _, [], acc => [acc.reverse]
  | 0, l, acc => [acc.reverse ++ l]
  | fuel + 1, c :: cs, acc =>
    if sep.isPrefixOf (c :: cs) then
      acc.reverse :: splitOnAux sep fuel ((c :: cs).drop sep.length) []
    else
      splitOnAux sep fuel cs (c :: acc)

/-- Model of Python `str.split(sep)` for a non-empty separator. -/
def pySplitOn (l sep : Str) : List Str := splitOnAux sep l.length l []

/-- Helper for `pyReplace`, with fuel bounded by the length of the input. -/
def replaceAll (pat rep : Str) : Nat → Str → Str
  | _, [] => []
  | 0, l => l
  | fuel + 1, c :: cs =>
    if pat.isPrefixOf (c :: cs) then rep ++ replaceAll pat rep fuel ((c :: cs).drop pat.length)
    else c :: replaceAll pat rep fuel cs

/-- Model of Python `str.replace(pat, rep)` for a non-empty pattern; also the
model of `str.format` for the one placeholder the query templates use. -/
def pyReplace (l pat rep : Str) : Str := replaceAll pat rep l.length l

/-- Model of Python `needle in hay` (substring containment). -/
def strIn (needle hay : Str) : Bool :=
  (List.range (hay.length + 1)).any (fun i => needle.isPrefixOf (hay.drop i))

/-! ### Configuration constants (lines 19-37 of the source) -/

/-- Line 26: the fixed job keyword list. -/
def JOB_KEYWORDS : List Str :=
  (["job", "jobs", "career", "careers", "apply", "hiring", "vacancy",
    "vacancies", "open position", "openings", "join our team"] : List String).map String.data

/-- Lines 29-33: candidate paths probed on each domain. -/
def COMMON_PATHS : List Str :=
  (["/careers", "/careers/", "/jobs", "/jobs/", "/about/careers", "/company/careers",
    "/careers.html", "/careers.php", "/join-us", "/join-us/", "/vacancies", "/open-positions",
    "/work-with-us", "/about-us/careers", "/team", "/about", "/contact", "/contact-us"] :
    List String).map String.data

/-- Line 36: the slot count of the shared fetch semaphore. -/
def SEM_MAX : Nat := 20

/-- Line 37: the per-request timeout in seconds. -/
def TIMEOUT : Nat := 12

/-! ### Obfuscation cleaning (lines 21-25 and 42-46)

Each entry of `OBFUSCATIONS` is one `re.sub(pattern, repl, s, flags=re.I)`
pass.  A matcher takes the current suffix of the text and, when the pattern
matches at its head, returns the rest after the (always non-empty) match.
Scanning is leftmost, non-overlapping, exactly like `re.sub`. -/

/-- Case-insensitive character equality (the effect of `re.I` on ASCII). -/
def eqCI (a b : Char) : Bool := lowerChar a == lowerChar b

/-- Consume an expected literal case-insensitively, returning the rest. -/
def expectCI : Str → Str → Option Str
  | [], l => some l
  | _ :: _, [] => none
  | p :: ps, c :: cs => if eqCI p c then expectCI ps cs else none

/-- Matcher of the alternative `\s+WORD\s+` of the first two obfuscation
patterns: one or more whitespace, the word (case-insensitive), one or more
whitespace, each run taken greedily. -/
def wsWordWs (word : Str) (l : Str) : Option Str :=
  if (l.takeWhile Char.isWhitespace).isEmpty then none
  else
    match expectCI word (l.dropWhile Char.isWhitespace) with
    | none => none
    | some r2 =>
      if (r2.takeWhile Char.isWhitespace).isEmpty then none
      else some (r2.dropWhile Char.isWhitespace)

/-- Matcher of the regex alternation for the at sign (line 22). -/
def matchAtObf (l : Str) : Option Str :=
  (expectCI "[at]".data l) <|> ((expectCI "(at)".data l) <|> (wsWordWs "at".data l))

/-- Matcher of the regex alternation for the dot (line 23). -/
def matchDotObf (l : Str) : Option Str :=
  (expectCI "[dot]".data l) <|> ((expectCI "(dot)".data l) <|> (wsWordWs "dot".data l))

/-- Matcher of the underscore pattern (line 24), whose whitespace runs may be
empty (the pattern uses a star, unlike the at/dot patterns). -/
def matchUnderscoreObf (l : Str) : Option Str :=
  match expectCI "[underscore]".data (l.dropWhile Char.isWhitespace) with
  | none => none
  | some r => some (r.dropWhile Char.isWhitespace)

/-- Line 21-25: the obfuscation substitution table, pattern matcher paired
with its single-character replacement. -/
def OBFUSCATIONS : List ((Str → Option Str) × Char) :=
  [(matchAtObf, '@'), (matchDotObf, '.'), (matchUnderscoreObf, '_')]

/-- One `re.sub` pass: scan left to right, replace each non-overlapping match
by the replacement character; on no match at the current position, keep one
character and move on.  Every matcher above consumes at least four characters,
so fuel equal to the length of the input never runs out. -/
def substAll (m : Str → Option Str) (r : Char) : Nat → Str → Str
  | 0, _ => []
  | _ + 1, [] => []
  | fuel + 1, c :: cs =>
    match m (c :: cs) with
    | some rest => r :: substAll m r fuel rest
    | none => c :: substAll m r fuel cs

/-- Lines 42-46: apply the three obfuscation substitutions in order. -/
def clean_obfuscation (l : Str) : Str :=
  OBFUSCATIONS.foldl (fun s pr => substAll pr.1 pr.2 s.length s) l

/-! ### The email regular expression (line 20)

`EMAIL_RE = [a-zA-Z0-9._%+\-]+@[a-zA-Z0-9.\-]+\.[a-zA-Z]{2,}` with
`re.findall` semantics: try each start position left to right; the local part
is a greedy run, `@` must follow; the domain run is greedy with backtracking,
so the dot consumed by `\.` is the last dot of the domain-character run that
is followed by at least two ASCII letters, and the final letter run is
greedy.  Scanning resumes after each match (non-overlapping). -/

/-- Characters of the local-part class `[a-zA-Z0-9._%+\-]`. -/
def isLocalChar (c : Char) : Bool :=
  c.isAlpha || c.isDigit || c == '.' || c == '_' || c == '%' || c == '+' || c == '-'

/-- Characters of the domain class `[a-zA-Z0-9.\-]`. -/
def isDomainChar (c : Char) : Bool :=
  c.isAlpha || c.isDigit || c == '.' || c == '-'

/-- Largest position of a dot in the domain run that is followed by at least
two ASCII letters: the backtracking of the greedy `[a-zA-Z0-9.\-]+` before
`\.[a-zA-Z]{2,}`. -/
def findSplit (dom : Str) : Option Nat :=
  ((List.range dom.length).reverse).find? (fun i =>
    decide (1 ≤ i) && (dom.getD i ' ' == '.') &&
      decide (2 ≤ ((dom.drop (i + 1)).takeWhile Char.isAlpha).length))

/-- Try to match the email regex at the head of `l`; on success return the
matched text and the rest of the input after the match. -/
def emailMatchAt (l : Str) : Option (Str × Str) :=
  let loc := l.takeWhile isLocalChar
  if loc.isEmpty then none
  else
    match l.drop loc.length with
    | '@' :: r2 =>
      let dom := r2.takeWhile isDomainChar
      match findSplit dom with
      | none => none
      | some i =>
        let tail := dom.drop (i + 1)
        let run := tail.takeWhile Char.isAlpha
        some (loc ++ '@' :: (dom.take i ++ '.' :: run),
              tail.dropWhile Char.isAlpha ++ r2.drop dom.length)
    | _ => none

/-- Scanning loop of `re.findall`; every successful match consumes at least
six characters, so fuel equal to the length of the input never runs out. -/
def findallEmails : Nat → Str → List Str
  | 0, _ => []
  | _ + 1, [] => []
  | fuel + 1, c :: cs =>
    match emailMatchAt (c :: cs) with
    | some (m, rest) => m :: findallEmails fuel rest
    | none => findallEmails fuel cs

/-- Model of `EMAIL_RE.findall(l)`. -/
def findEmails (l : Str) : List Str := findallEmails l.length l

/-! ### Email extraction (lines 48-65) and job classification (lines 67-69)

The BeautifulSoup collaborator is an oracle (`SoupModel`): for one HTML text
it yields the `href` attributes of the anchors selected by
`a[href^="mailto:"]` (each starting with `mailto:`), and the heading/visible
text of the document; `none` models a raised parse exception, which the
source swallows (`except Exception: pass`, lines 57-58 and 152-153). -/

/-- Result of `soup.find("h1") or soup.find("title")` (stripped text, `none`
when neither tag exists) and `soup.get_text(separator=" ", strip=True)`. -/
structure SoupDoc where
  heading : Option Str
  fullText : Str
deriving DecidableEq

/-- The markup-parsing collaborator for one raw HTML text. -/
structure SoupModel where
  mailtoHrefs : Str → Option (List Str)
  doc : Str → Option SoupDoc

/-- Line 54: `a.get("href").split("mailto:")[1].split("?")[0].strip()`. -/
def mailtoAddrOf (href : Str) : Str :=
  pyTrim (((pySplitOn ((pySplitOn href "mailto:".data).getD 1 []) "?".data)).headD [])

/-- Model of `set.add`: a duplicate-free accumulator list. -/
def addSet (l : List Str) (s : Str) : List Str := if s ∈ l then l else l ++ [s]

/-- One accumulation loop over `l`: add `f b` to the set for every `b`
passing the guard `g`. -/
def addAll (f : β → Str) (g : β → Bool) (acc : List Str) (l : List β) : List Str :=
  l.foldl (fun a b => if g b then addSet a (f b) else a) acc

/-- Kernel-reducible comparison realising Python string `<=` (code points). -/
def strLe (a b : Str) : Bool := decide (a ≤ b)

/-- Insert into a list sorted by `le`. -/
def insertLe (le : α → α → Bool) (a : α) : List α → List α
  | [] => [a]
  | b :: bs => if le a b then a :: b :: bs else b :: insertLe le a bs

/-- Insertion sort by `le`; with a total transitive `le` the output is
sorted, which characterises Python `sorted` on a duplicate-free input. -/
def sortLe (le : α → α → Bool) (l : List α) : List α := l.foldr (insertLe le) []

/-- Python `sorted` on strings. -/
def pySorted (l : List Str) : List Str := sortLe strLe l

/-- Lines 50-58: the first accumulation loop of `extract_emails_from_html`:
the address of each mailto anchor is added verbatim when non-empty; a raised
parse exception contributes nothing (`except Exception: pass`). -/
def mailtoSet (soup : SoupModel) (html : Str) : List Str :=
  match soup.mailtoHrefs html with
  | none => []
  | some hrefs => addAll mailtoAddrOf (fun h => !(mailtoAddrOf h).isEmpty) [] hrefs

/-- Lines 60-63: the second accumulation loop: every regex match over the
obfuscation-cleaned text is stripped, lowercased and added. -/
def emailSet (soup : SoupModel) (html : Str) : List Str :=
  addAll (fun m => pyLower (pyTrim m)) (fun _ => true) (mailtoSet soup html)
    (findEmails (clean_obfuscation html))

/-- Lines 48-65: `extract_emails_from_html` returns `sorted(emails)` over
the accumulated set. -/
def extract_emails_from_html (soup : SoupModel) (html : Str) : List Str :=
  pySorted (emailSet soup html)

/-- Lines 67-69: `is_job_like`; `(text or "").lower()` then substring
containment of any keyword (on `Str` the `or ""` guard is the identity). -/
def is_job_like (text : Str) : Bool :=
  JOB_KEYWORDS.any (fun k => strIn k (pyLower text))

/-! ### Fetching and probing (lines 74-93)

The httpx client is an oracle from a URL to either a response (status code
and body text) or a raised exception (`Except.error`). -/

/-- One element of the `(url, status, text)` tuples of the source. -/
structure FetchResult where
  url : Str
  status : Nat
  body : Str
deriving DecidableEq

/-- The HTTP collaborator: `client.get` either returns a response or raises. -/
abbrev HttpOracle := Str → Except Unit (Nat × Str)

/-- Lines 76-83: `fetch` returns `(url, status_code, text)`, or the sentinel
`(url, 0, "")` when the request raised; it never propagates the exception. -/
def fetch (http : HttpOracle) (url : Str) : FetchResult :=
  match http url with
  | Except.ok r => ⟨url, r.1, r.2⟩
  | Except.error _ => ⟨url, 0, []⟩

/-- Lines 87-89: the root URL plus one URL per common path.  All paths are
root-relative, for which `urljoin(base, p)` is concatenation. -/
def candidateUrls (domain : Str) : List Str :=
  let base := "https://".data ++ domain
  base :: COMMON_PATHS.map (fun p => base ++ p)

/-- Lines 85-93: probe all candidate URLs of one domain (`asyncio.gather`
keeps task-list order) and keep the responses with status 200 and a
non-empty (truthy) body. -/
def probe_domain (http : HttpOracle) (domain : Str) : List FetchResult :=
  ((candidateUrls domain).map (fetch http)).filter
    (fun r => r.status == 200 && !r.body.isEmpty)

/-! ### Search and discovery (lines 98-126)

The DDGS collaborator is an oracle from a formatted query and a requested
result count to either a list of result items or a raised exception; a
failure on one template is swallowed (lines 124-125). -/

/-- One search result item; `ddg.text` items are dictionaries, of which only
the `href` and `link` fields are read (`none` models a missing key). -/
structure SearchItem where
  href : Option Str
  link : Option Str

/-- The search collaborator. -/
abbrev SearchOracle := Str → Nat → Except Unit (List SearchItem)

/-- Python truthiness on an optional string: `None` and `""` are falsy. -/
def truthyOpt : Option Str → Option Str
  | some s => if s.isEmpty then none else some s
  | none => none

/-- Line 117: `item.get("href") or item.get("link")`. -/
def firstLink (it : SearchItem) : Option Str :=
  (truthyOpt it.href) <|> (truthyOpt it.link)

/-- Scheme characters of `urllib.parse`: letters, digits, plus, minus, dot. -/
def isSchemeChar (c : Char) : Bool :=
  c.isAlpha || c.isDigit || c == '+' || c == '-' || c == '.'

/-- Drop a leading `scheme:` when the part before the first colon is a
non-empty run of scheme characters, as `urllib.parse.urlsplit` does. -/
def dropScheme (l : Str) : Str :=
  let pre := l.takeWhile isSchemeChar
  match l.drop pre.length with
  | ':' :: rest => if pre.isEmpty then l else rest
  | _ => l

/-- Model of `urlparse(url).netloc`: present only after `//`, up to the
next slash, question mark or hash. -/
def pyNetloc (url : Str) : Str :=
  match dropScheme url with
  | '/' :: '/' :: rest =>
    rest.takeWhile (fun c => !(c == '/') && !(c == '?') && !(c == '#'))
  | _ => []

/-- Lines 102-111: the eight query templates. -/
def templates : List Str :=
  (["{q} jobs", "{q} careers", "{q} \"career\"", "{q} \"apply\"", "{q} \"hiring\"",
    "{q} site:linkedin.com {q}", "{q} site:indeed.com {q}",
    "{q} site:glassdoor.com {q}"] : List String).map String.data

/-- The search calls the discovery loop issues: per template, the formatted
query (line 114) and the requested count `max_results // len(templates)`
(line 116). -/
def ddgCalls (query : Str) (maxResults : Nat) : List (Str × Nat) :=
  templates.map (fun t => (pyReplace t "{q}".data query, maxResults / templates.length))

/-- Lines 116-123: the body of the per-template loop over returned items:
extract the link field, parse out the host, lowercase it, add if non-empty. -/
def addDomains (acc : List Str) (items : List SearchItem) : List Str :=
  items.foldl
    (fun a it =>
      match firstLink it with
      | none => a
      | some href =>
        let dom := pyLower (pyNetloc href)
        if dom.isEmpty then a else addSet a dom)
    acc

/-- Lines 98-126: `ddg_search_domains`.  One search call per template; a
failing call is skipped (`except Exception: continue`); the domain set is
modelled by its duplicate-free accumulation list. -/
def ddg_search_domains (search : SearchOracle) (query : Str) (maxResults : Nat) : List Str :=
  (ddgCalls query maxResults).foldl
    (fun acc c =>
      match search c.1 c.2 with
      | Except.error _ => acc
      | Except.ok items => addDomains acc items)
    []

/-! ### The orchestrating pipeline (lines 131-171) -/

/-- One row of the result table (lines 158-167); `scraped_at` is the
wall-clock timestamp, passed in as a parameter. -/
structure Row where
  domain : Str
  url : Str
  status : Nat
  title : Str
  snippet : Str
  is_job_like : Bool
  emails : Str
  scraped_at : Str
deriving DecidableEq

/-- Sort key rank of the `is_job_like` column under `ascending=False`:
`True` sorts before `False`. -/
def jobRank (r : Row) : Nat := if r.is_job_like then 0 else 1

/-- The row ordering of line 170: `is_job_like` descending, then `domain`
ascending, lexicographically combined. -/
def rowLe (r s : Row) : Bool :=
  decide (jobRank r < jobRank s) || (jobRank r == jobRank s && decide (r.domain ≤ s.domain))

/-- Line 170: `df.sort_values(by=["is_job_like", "domain"],
ascending=[False, True])` (tie order among equal keys is unspecified by the
unstable pandas sort; the claims proved below are tie-order insensitive). -/
def sortRows (rows : List Row) : List Row := sortLe rowLe rows

/-- Model of `";".join`. -/
def joinSemi : List Str → Str
  | [] => []
  | x :: xs => x ++ xs.flatMap (fun y => ';' :: y)

/-- Lines 144-167: assemble one row from a successful fetch result.  The
title/snippet block degrades to empty strings when the parser raises; the
classifier sees the raw title (before the `or "N/A"` fallback of line 162). -/
def mkRow (soup : SoupModel) (now domain : Str) (fr : FetchResult) : Row :=
  let td : Str × Str :=
    match soup.doc fr.body with
    | some d => ((match d.heading with | some t => t | none => []), d.fullText.take 800)
    | none => ([], [])
  let title := td.1
  let snippet := td.2
  let emails := extract_emails_from_html soup fr.body
  let job := is_job_like snippet || is_job_like title
  { domain := domain
    url := fr.url
    status := fr.status
    title := if title.isEmpty then "N/A".data else title
    snippet := snippet
    is_job_like := job
    emails := if emails.isEmpty then [] else joinSemi emails
    scraped_at := now }

/-- Lines 138-167: probe every discovered domain (`asyncio.gather` keeps the
domain order) and build a row per successful fetch result. -/
def buildRows (soup : SoupModel) (http : HttpOracle) (now : Str) (domains : List Str) : List Row :=
  domains.flatMap (fun d => (probe_domain http d).map (mkRow soup now d))

/-- The candidate URLs for which fetch tasks are created during the probing
phase (lines 89-90 and 138). -/
def attemptedUrls (domains : List Str) : List Str := domains.flatMap candidateUrls

/-- Lines 131-171: `scrape_careers`.  When no row was produced,
`pd.DataFrame(rows)` is a frame without columns and
`df.sort_values(by=["is_job_like", "domain"], ...)` raises
`KeyError: is_job_like`; otherwise the sorted table is returned. -/
def scrape_careers (search : SearchOracle) (http : HttpOracle) (soup : SoupModel)
    (now query : Str) (maxResults : Nat) : Except String (List Row) :=
  let domains := ddg_search_domains search query maxResults
  let rows := buildRows soup http now domains
  if rows.isEmpty then Except.error "KeyError: is_job_like"
  else Except.ok (sortRows rows)

/-! ### The shared fetch semaphore (lines 36, 74 and 79)

`fetch` runs `client.get` inside `async with sem` where
`sem = asyncio.Semaphore(SEM_MAX)` is a single module-level semaphore shared
by every fetch task of the probing phase, whatever its domain.  The phase is
modelled as a transition system over the task list: a task acquires a free
slot before its request is issued (`acquire`) and releases it on every exit
path, response and exception alike (`release`, the guarantee of
`async with`). -/

/-- State of one fetch task of the probing phase. -/
inductive TaskState where
  | idle
  | running
  | done
deriving DecidableEq

/-- A probing phase: the per-task states and the free slots of the shared
semaphore. -/
structure ProbePhase where
  tasks : List TaskState
  avail : Nat
deriving DecidableEq

/-- Number of fetches in flight: tasks currently holding a slot. -/
def inFlight (s : ProbePhase) : Nat := s.tasks.countP (· == TaskState.running)

/-- Initial phase over `n` candidate URLs: no task started, all `SEM_MAX`
slots free. -/
def initPhase (n : Nat) : ProbePhase := ⟨List.replicate n TaskState.idle, SEM_MAX⟩

/-- The scheduler steps: a task may issue its request only once it holds a
slot, and a finishing task (success or exception) always gives its slot
back. -/
inductive SemStep : ProbePhase → ProbePhase → Prop where
  | acquire (s : ProbePhase) (i : Nat)
      (h : s.tasks.getD i TaskState.done = TaskState.idle) (ha : 0 < s.avail) :
      SemStep s ⟨s.tasks.set i TaskState.running, s.avail - 1⟩
  | release (s : ProbePhase) (i : Nat)
      (h : s.tasks.getD i TaskState.done = TaskState.running) :
      SemStep s ⟨s.tasks.set i TaskState.done, s.avail + 1⟩

/-- Phases reachable from the start of a probing phase over `n` URLs. -/
def Reachable (n : Nat) (s : ProbePhase) : Prop :=
  Relation.ReflTransGen SemStep (initPhase n) s

/-! ### Concrete collaborator instances used in the evaluations below -/

/-- BeautifulSoup on anchor-free text: no mailto links; the title/text
extraction left unspecified (failing), as the claims below never need it. -/
def soupPlain : SoupModel := ⟨fun _ => some [], fun _ => none⟩

/-- BeautifulSoup on `<a href="mailto:Jane@Acme.com">e</a>`: one mailto
anchor with a mixed-case address. -/
def soupJane : SoupModel := ⟨fun _ => some ["mailto:Jane@Acme.com".data], fun _ => none⟩

/-- The HTML document of the mixed-case mailto counterexample. -/
def janeHtml : Str := "<a href=\"mailto:Jane@Acme.com\">e</a>".data

/-- A search provider whose every call raises: total discovery failure. -/
def failSearch : SearchOracle := fun _ _ => Except.error ()

/-- A search provider returning one result link on every call. -/
def searchOne : SearchOracle :=
  fun _ _ => Except.ok [⟨some "https://acme.com/x".data, none⟩]

/-- An HTTP client where only the root page of `acme.com` responds (status
200, body `x`); every other request raises. -/
def httpRoot : HttpOracle :=
  fun u => if u = "https://acme.com".data then Except.ok (200, "x".data) else Except.error ()

/-- A job-like extracted page for domain `a.com` (ranking example). -/
def pageA : Row :=
  ⟨"a.com".data, "https://a.com".data, 200, "A".data, [], true, [], []⟩

/-- A non-job-like extracted page for domain `b.com` (ranking example). -/
def pageB : Row :=
  ⟨"b.com".data, "https://b.com".data, 200, "B".data, [], false, [], []⟩

/-- A job-like extracted page for domain `c.com` (ranking example). -/
def pageC : Row :=
  ⟨"c.com".data, "https://c.com".data, 200, "C".data, [], true, [], []⟩

/-! ### Helper lemmas: insertion sort -/

theorem mem_insertLe {α : Type} (le : α → α → Bool) (a x : α) (l : List α) :
    x ∈ insertLe le a l ↔ x = a ∨ x ∈ l := by
  induction l with
  | nil => simp [insertLe]
  | cons b bs ih =>
    simp only [insertLe]
    split
    · simp only [List.mem_cons]
    · simp only [List.mem_cons, ih]
      tauto

theorem perm_insertLe {α : Type} (le : α → α → Bool) (a : α) (l : List α) :
    List.Perm (insertLe le a l) (a :: l) := by
  induction l with
  | nil => exact List.Perm.refl _
  | cons b bs ih =>
    simp only [insertLe]
    split
    · exact List.Perm.refl _
    · exact (List.Perm.cons b ih).trans (List.Perm.swap a b bs)

theorem perm_sortLe {α : Type} (le : α → α → Bool) (l : List α) :
    List.Perm (sortLe le l) l := by
  induction l with
  | nil => exact List.Perm.refl _
  | cons a l ih =>
    show List.Perm (insertLe le a (sortLe le l)) (a :: l)
    exact (perm_insertLe le a (sortLe le l)).trans (List.Perm.cons a ih)

theorem pairwise_insertLe {α : Type} (le : α → α → Bool)
    (htot : ∀ a b, le a b = true ∨ le b a = true)
    (htrans : ∀ a b c, le a b = true → le b c = true → le a c = true)
    (a : α) (l : List α) (h : l.Pairwise (fun x y => le x y = true)) :
    (insertLe le a l).Pairwise (fun x y => le x y = true) := by
  induction l with
  | nil => simp [insertLe]
  | cons b bs ih =>
    rw [List.pairwise_cons] at h
    obtain ⟨hb, hbs⟩ := h
    simp only [insertLe]
    split
    · rename_i hab
      rw [List.pairwise_cons]
      refine ⟨?_, List.pairwise_cons.mpr ⟨hb, hbs⟩⟩
      intro x hx
      rcases List.mem_cons.mp hx with rfl | hx
      · exact hab
      · exact htrans a b x hab (hb x hx)
    · rename_i hab
      rw [List.pairwise_cons]
      refine ⟨?_, ih hbs⟩
      intro x hx
      rcases (mem_insertLe le a x bs).mp hx with rfl | hx
      · rcases htot x b with h1 | h1
        · exact absurd h1 hab
        · exact h1
      · exact hb x hx

theorem pairwise_sortLe {α : Type} (le : α → α → Bool)
    (htot : ∀ a b, le a b = true ∨ le b a = true)
    (htrans : ∀ a b c, le a b = true → le b c = true → le a c = true)
    (l : List α) : (sortLe le l).Pairwise (fun x y => le x y = true) := by
  induction l with
  | nil => simp [sortLe]
  | cons a l ih => exact pairwise_insertLe le htot htrans a (sortLe le l) ih

/-! ### Helper lemmas: set accumulation -/

theorem mem_addSet (l : List Str) (s x : Str) : x ∈ addSet l s ↔ x ∈ l ∨ x = s := by
  unfold addSet
  split
  · rename_i hs
    constructor
    · exact Or.inl
    · rintro (h | rfl)
      · exact h
      · exact hs
  · simp [List.mem_append]

theorem nodup_addSet (l : List Str) (s : Str) (h : l.Nodup) : (addSet l s).Nodup := by
  unfold addSet
  split
  · exact h
  · rename_i hs
    rw [List.nodup_append]
    refine ⟨h, List.nodup_singleton s, ?_⟩
    intro x hx hx2
    rw [List.mem_singleton] at hx2
    subst hx2
    exact hs hx

theorem mem_addAll {β : Type} (f : β → Str) (g : β → Bool) (x : Str) :
    ∀ (l : List β) (acc : List Str),
      x ∈ addAll f g acc l ↔ x ∈ acc ∨ ∃ b ∈ l, g b = true ∧ x = f b := by
  intro l
  induction l with
  | nil => intro acc; simp [addAll]
  | cons b bs ih =>
    intro acc
    have hstep : addAll f g acc (b :: bs)
        = addAll f g (if g b then addSet acc (f b) else acc) bs := rfl
    rw [hstep, ih]
    split
    · rename_i hgb
      rw [mem_addSet]
      constructor
      · rintro ((h | rfl) | ⟨c, hc, hgc, rfl⟩)
        · exact Or.inl h
        · exact Or.inr ⟨b, List.mem_cons_self b bs, hgb, rfl⟩
        · exact Or.inr ⟨c, List.mem_cons_of_mem b hc, hgc, rfl⟩
      · rintro (h | ⟨c, hc, hgc, rfl⟩)
        · exact Or.inl (Or.inl h)
        · rcases List.mem_cons.mp hc with rfl | hc
          · exact Or.inl (Or.inr rfl)
          · exact Or.inr ⟨c, hc, hgc, rfl⟩
    · rename_i hgb
      constructor
      · rintro (h | ⟨c, hc, hgc, rfl⟩)
        · exact Or.inl h
        · exact Or.inr ⟨c, List.mem_cons_of_mem b hc, hgc, rfl⟩
      · rintro (h | ⟨c, hc, hgc, rfl⟩)
        · exact Or.inl h
        · rcases List.mem_cons.mp hc with rfl | hc
          · exact absurd hgc hgb
          · exact Or.inr ⟨c, hc, hgc, rfl⟩

theorem nodup_addAll {β : Type} (f : β → Str) (g : β → Bool) :
    ∀ (l : List β) (acc : List Str), acc.Nodup → (addAll f g acc l).Nodup := by
  intro l
  induction l with
  | nil => intro acc h; exact h
  | cons b bs ih =>
    intro acc h
    show (addAll f g (if g b then addSet acc (f b) else acc) bs).Nodup
    apply ih
    split
    · exact nodup_addSet acc (f b) h
    · exact h

/-! ### Helper lemmas: the orders used by the two sorts -/

theorem strLe_iff (a b : Str) : strLe a b = true ↔ a ≤ b := by
  simp [strLe]

theorem strLe_total (a b : Str) : strLe a b = true ∨ strLe b a = true := by
  rw [strLe_iff, strLe_iff]
  exact le_total a b

theorem strLe_trans (a b c : Str) (h1 : strLe a b = true) (h2 : strLe b c = true) :
    strLe a c = true := by
  rw [strLe_iff] at *
  exact le_trans h1 h2

theorem rowLe_iff (r s : Row) :
    rowLe r s = true ↔ jobRank r < jobRank s ∨ (jobRank r = jobRank s ∧ r.domain ≤ s.domain) := by
  simp [rowLe, Bool.or_eq_true, Bool.and_eq_true, decide_eq_true_eq, beq_iff_eq]

theorem rowLe_total (r s : Row) : rowLe r s = true ∨ rowLe s r = true := by
  rw [rowLe_iff, rowLe_iff]
  rcases Nat.lt_trichotomy (jobRank r) (jobRank s) with h | h | h
  · exact Or.inl (Or.inl h)
  · rcases le_total r.domain s.domain with hd | hd
    · exact Or.inl (Or.inr ⟨h, hd⟩)
    · exact Or.inr (Or.inr ⟨h.symm, hd⟩)
  · exact Or.inr (Or.inl h)

theorem rowLe_trans (r s t : Row) (h1 : rowLe r s = true) (h2 : rowLe s t = true) :
    rowLe r t = true := by
  rw [rowLe_iff] at *
  rcases h1 with h1 | ⟨e1, d1⟩
  · rcases h2 with h2 | ⟨e2, d2⟩
    · exact Or.inl (h1.trans h2)
    · exact Or.inl (e2 ▸ h1)
  · rcases h2 with h2 | ⟨e2, d2⟩
    · exact Or.inl (e1 ▸ h2)
    · exact Or.inr ⟨e1.trans e2, le_trans d1 d2⟩

/-! ### Helper lemmas: lowercasing -/

theorem find_lower_none : ∀ p ∈ caseTable, caseTable.find? (fun q => q.1 == p.2) = none := by
  decide

theorem lowerChar_idem (c : Char) : lowerChar (lowerChar c) = lowerChar c := by
  cases h : caseTable.find? (fun p => p.1 == c) with
  | none =>
    have hc : lowerChar c = c := by unfold lowerChar; rw [h]
    rw [hc, hc]
  | some p =>
    have hc : lowerChar c = p.2 := by unfold lowerChar; rw [h]
    have hp : p ∈ caseTable := List.mem_of_find?_eq_some h
    rw [hc]
    unfold lowerChar
    rw [find_lower_none p hp]

theorem pyLower_idem (l : Str) : pyLower (pyLower l) = pyLower l := by
  induction l with
  | nil => rfl
  | cons c cs ih =>
    simp only [pyLower, List.map_cons] at *
    rw [lowerChar_idem c, ih]

/-! ### Helper lemmas: `pySorted` realises Python `sorted` -/

theorem mem_pySorted (l : List Str) (x : Str) : x ∈ pySorted l ↔ x ∈ l :=
  (perm_sortLe strLe l).mem_iff

theorem pySorted_pairwise_lt (l : List Str) (h : l.Nodup) : (pySorted l).Pairwise (· < ·) := by
  have hle := pairwise_sortLe strLe strLe_total strLe_trans l
  have hnd : (pySorted l).Nodup := ((perm_sortLe strLe l).nodup_iff).mpr h
  have hle2 : (pySorted l).Pairwise (· ≤ ·) := hle.imp (fun hx => (strLe_iff _ _).mp hx)
  exact (hle2.and hnd).imp (fun hx => lt_of_le_of_ne hx.1 hx.2)

theorem nodup_mailtoSet (soup : SoupModel) (html : Str) : (mailtoSet soup html).Nodup := by
  unfold mailtoSet
  split
  · exact List.nodup_nil
  · exact nodup_addAll _ _ _ [] List.nodup_nil

theorem nodup_emailSet (soup : SoupModel) (html : Str) : (emailSet soup html).Nodup :=
  nodup_addAll _ _ _ _ (nodup_mailtoSet soup html)

/-! ### Helper lemmas: substring containment -/

theorem isPrefixOf_true_iff (a b : Str) : a.isPrefixOf b = true ↔ a <+: b := by
  induction a generalizing b with
  | nil => simp [List.isPrefixOf, List.nil_prefix]
  | cons c cs ih =>
    cases b with
    | nil => simp [List.isPrefixOf]
    | cons d ds =>
      simp only [List.isPrefixOf, Bool.and_eq_true, beq_iff_eq, ih]
      exact (List.cons_prefix_cons).symm

theorem strIn_true_iff (n h : Str) : strIn n h = true ↔ n <:+: h := by
  unfold strIn
  rw [List.any_eq_true]
  constructor
  · rintro ⟨i, hi, hpre⟩
    rw [isPrefixOf_true_iff] at hpre
    obtain ⟨t, ht⟩ := hpre
    exact ⟨h.take i, t, by rw [List.append_assoc, ht, List.take_append_drop]⟩
  · rintro ⟨s, t, rfl⟩
    refine ⟨s.length, List.mem_range.mpr ?_, ?_⟩
    · simp only [List.length_append]
      omega
    · rw [isPrefixOf_true_iff]
      have hd : (s ++ n ++ t).drop s.length = n ++ t := by
        rw [List.append_assoc, List.drop_left]
      rw [hd]
      exact ⟨t, rfl⟩

/-! ### Helper lemmas: the semaphore invariant -/

theorem countRun_replicate (n : Nat) :
    (List.replicate n TaskState.idle).countP (· == TaskState.running) = 0 := by
  induction n with
  | zero => rfl
  | succ m ih => simp [List.replicate_succ, List.countP_cons, ih]

theorem countRun_set_run :
    ∀ (l : List TaskState) (i : Nat),
      l.getD i TaskState.done = TaskState.idle →
      (l.set i TaskState.running).countP (· == TaskState.running)
        = l.countP (· == TaskState.running) + 1 := by
  intro l
  induction l with
  | nil =>
    intro i h
    simp [List.getD] at h
  | cons x xs ih =>
    intro i h
    cases i with
    | zero =>
      have hx : x = TaskState.idle := by simpa [List.getD] using h
      subst hx
      simp [List.set, List.countP_cons]
    | succ j =>
      have hj : xs.getD j TaskState.done = TaskState.idle := by simpa [List.getD] using h
      simp [List.set, List.countP_cons, ih j hj]
      omega

theorem countRun_set_done :
    ∀ (l : List TaskState) (i : Nat),
      l.getD i TaskState.done = TaskState.running →
      l.countP (· == TaskState.running)
        = (l.set i TaskState.done).countP (· == TaskState.running) + 1 := by
  intro l
  induction l with
  | nil =>
    intro i h
    simp [List.getD] at h
  | cons x xs ih =>
    intro i h
    cases i with
    | zero =>
      have hx : x = TaskState.running := by simpa [List.getD] using h
      subst hx
      simp [List.set, List.countP_cons]
    | succ j =>
      have hj : xs.getD j TaskState.done = TaskState.running := by simpa [List.getD] using h
      simp [List.set, List.countP_cons, ih j hj]
      omega

theorem semInvariant (n : Nat) (s : ProbePhase) (h : Reachable n s) :
    inFlight s + s.avail = SEM_MAX := by
  induction h with
  | refl => simp [inFlight, initPhase, countRun_replicate]
  | tail hr hstep ih =>
    cases hstep with
    | acquire i hi ha =>
      have hc := countRun_set_run _ i hi
      simp only [inFlight] at *
      omega
    | release i hi =>
      have hc := countRun_set_done _ i hi
      simp only [inFlight] at *
      omega

/-! ### The claims -/

/-- C1 (amended): for every markup-parser output and raw HTML input, the
extracted list is sorted lexicographically and contains no duplicates
(pairwise strictly increasing), and every address in it is either lowercase
(all regex-derived addresses are) or stems verbatim from a mailto anchor,
whose case is preserved. -/
theorem email_extractor_sorted_nodup (soup : SoupModel) (html : Str) :
    (extract_emails_from_html soup html).Pairwise (· < ·) ∧
    ∀ s ∈ extract_emails_from_html soup html,
      pyLower s = s ∨
        ∃ hrefs, soup.mailtoHrefs html = some hrefs ∧
          ∃ href ∈ hrefs, s = mailtoAddrOf href := by
  constructor
  · exact pySorted_pairwise_lt _ (nodup_emailSet soup html)
  · intro s hs
    rw [extract_emails_from_html, mem_pySorted] at hs
    rcases (mem_addAll _ _ _ _ _).mp hs with h0 | ⟨m, _, _, rfl⟩
    · rw [mailtoSet] at h0
      cases hh : soup.mailtoHrefs html with
      | none =>
        rw [hh] at h0
        simp at h0
      | some hrefs =>
        rw [hh] at h0
        have h1 : s ∈ addAll mailtoAddrOf (fun h => !(mailtoAddrOf h).isEmpty) [] hrefs := h0
        rcases (mem_addAll _ _ _ _ _).mp h1 with h2 | ⟨href, hhref, _, rfl⟩
        · simp at h2
        · exact Or.inr ⟨hrefs, rfl, href, hhref, rfl⟩
    · exact Or.inl (pyLower_idem _)

/-- C1 witness: the amended statement applied to the mixed-case mailto
document, at the regex-derived lowercase address. -/
theorem email_extractor_sorted_nodup_witness :
    ("jane@acme.com".data ∈ extract_emails_from_html soupJane janeHtml) ∧
    (pyLower "jane@acme.com".data = "jane@acme.com".data ∨
      ∃ hrefs, soupJane.mailtoHrefs janeHtml = some hrefs ∧
        ∃ href ∈ hrefs, "jane@acme.com".data = mailtoAddrOf href) :=
  ⟨by decide, (email_extractor_sorted_nodup soupJane janeHtml).2 _ (by decide)⟩

/-- C1 counterexample: on `<a href="mailto:Jane@Acme.com">e</a>` the
extractor returns the mailto address verbatim next to its lowercased
regex-derived copy, so not every returned address is lowercase. -/
theorem email_extractor_case_counterexample :
    extract_emails_from_html soupJane janeHtml
      = ["Jane@Acme.com".data, "jane@acme.com".data] ∧
    ¬ ∀ s ∈ extract_emails_from_html soupJane janeHtml, pyLower s = s := by
  exact ⟨by decide, by decide⟩

/-- C2: the round-trip input of the spec, `"name [at] example [dot] com"` yields
no address at all: the obfuscation substitutions leave the surrounding
spaces in place, and the email regex rejects the cleaned text.  The
space-free and bare-word obfuscations do round-trip. -/
theorem obfuscation_roundtrip_fails :
    extract_emails_from_html soupPlain "name [at] example [dot] com".data = [] ∧
    clean_obfuscation "name [at] example [dot] com".data = "name @ example . com".data ∧
    extract_emails_from_html soupPlain "name[at]example[dot]com".data
      = ["name@example.com".data] ∧
    extract_emails_from_html soupPlain "name at example dot com".data
      = ["name@example.com".data] := by
  exact ⟨by decide, by decide, by decide, by decide⟩

/-- C3: when every search template fails, discovery yields zero domains and
the probing phase attempts no fetch, but the pipeline does not return an
empty ResultSet: sorting the empty, column-less DataFrame raises
`KeyError`. -/
theorem zero_domains_keyerror (http : HttpOracle) (soup : SoupModel) (now q : Str) (B : Nat) :
    ddg_search_domains failSearch q B = [] ∧
    attemptedUrls (ddg_search_domains failSearch q B) = [] ∧
    scrape_careers failSearch http soup now q B = Except.error "KeyError: is_job_like" := by
  exact ⟨rfl, rfl, rfl⟩

/-- C4: a domain probe returns exactly those fetch results of the attempted
candidate URLs whose status is exactly 200 and whose body is non-empty, and
every assembled row stems from such a fetch result. -/
theorem probe_returns_success_only (http : HttpOracle) :
    (∀ d r, r ∈ probe_domain http d ↔
      (r ∈ (candidateUrls d).map (fetch http) ∧ r.status = 200 ∧ r.body ≠ [])) ∧
    (∀ soup now domains row, row ∈ buildRows soup http now domains →
      ∃ d fr, d ∈ domains ∧ fr ∈ probe_domain http d ∧ fr.status = 200 ∧ fr.body ≠ [] ∧
        row = mkRow soup now d fr) := by
  have hmem : ∀ d r, r ∈ probe_domain http d ↔
      (r ∈ (candidateUrls d).map (fetch http) ∧ r.status = 200 ∧ r.body ≠ []) := by
    intro d r
    unfold probe_domain
    rw [List.mem_filter]
    simp [Bool.and_eq_true, beq_iff_eq, and_assoc]
  refine ⟨hmem, ?_⟩
  intro soup now domains row hrow
  unfold buildRows at hrow
  rw [List.mem_flatMap] at hrow
  obtain ⟨d, hd, hrow⟩ := hrow
  rw [List.mem_map] at hrow
  obtain ⟨fr, hfr, rfl⟩ := hrow
  have hc := (hmem d fr).mp hfr
  exact ⟨d, fr, hd, hfr, hc.2.1, hc.2.2, rfl⟩

/-- C4 witness: the row of the example run stems from the one successful
probe of `acme.com`. -/
theorem probe_returns_success_only_witness :
    ∃ d fr, d ∈ ["acme.com".data] ∧ fr ∈ probe_domain httpRoot d ∧ fr.status = 200 ∧
      fr.body ≠ [] ∧
      mkRow soupPlain "t".data "acme.com".data ⟨"https://acme.com".data, 200, "x".data⟩
        = mkRow soupPlain "t".data d fr :=
  (probe_returns_success_only httpRoot).2 soupPlain "t".data ["acme.com".data] _ (by decide)

/-- C5: the fetcher never propagates a failure past its boundary: it
returns the status code and body of the response on success and the sentinel
`(url, 0, "")` on any raised exception. -/
theorem fetch_never_raises (http : HttpOracle) (u : Str) :
    (∃ st body, http u = Except.ok (st, body) ∧ fetch http u = ⟨u, st, body⟩) ∨
    (http u = Except.error () ∧ fetch http u = ⟨u, 0, []⟩) := by
  cases h : http u with
  | ok r =>
    obtain ⟨st, body⟩ := r
    refine Or.inl ⟨st, body, rfl, ?_⟩
    unfold fetch
    rw [h]
  | error e =>
    cases e
    refine Or.inr ⟨rfl, ?_⟩
    unfold fetch
    rw [h]

/-- C6: a successful pipeline run is pairwise ordered by job-likelihood
descending then domain ascending, and the three-page ranking example orders
`a.com`, `c.com`, `b.com`. -/
theorem resultset_ranked :
    (∀ search http soup now q B l,
      scrape_careers search http soup now q B = Except.ok l →
      l.Pairwise (fun r s => rowLe r s = true)) ∧
    sortRows [pageB, pageA, pageC] = [pageA, pageC, pageB] := by
  constructor
  · intro search http soup now q B l h
    simp only [scrape_careers] at h
    split at h
    · cases h
    · cases h
      exact pairwise_sortLe rowLe rowLe_total rowLe_trans _
  · decide

/-- C6 witness: the example run succeeds and its result list is pairwise
ordered by the ranking relation. -/
theorem resultset_ranked_witness :
    scrape_careers searchOne httpRoot soupPlain "t".data "q".data 60
      = Except.ok [⟨"acme.com".data, "https://acme.com".data, 200, "N/A".data, [], false, [],
          "t".data⟩] ∧
    ([⟨"acme.com".data, "https://acme.com".data, 200, "N/A".data, [], false, [],
        "t".data⟩] : List Row).Pairwise (fun r s => rowLe r s = true) :=
  ⟨by rfl, resultset_ranked.1 searchOne httpRoot soupPlain "t".data "q".data 60 _ (by rfl)⟩

/-- C7: the job classifier is true exactly when some term of the fixed
keyword list occurs case-insensitively as a substring (not token-bounded),
and the two spec examples classify as stated. -/
theorem job_classifier_contract :
    (∀ t : Str, is_job_like t = true ↔ ∃ k ∈ JOB_KEYWORDS, k <:+: pyLower t) ∧
    is_job_like "We are HIRING now!".data = true ∧
    is_job_like "About our office plants".data = false := by
  refine ⟨?_, by decide, by decide⟩
  intro t
  unfold is_job_like
  rw [List.any_eq_true]
  constructor
  · rintro ⟨k, hk, h⟩
    exact ⟨k, hk, (strIn_true_iff k (pyLower t)).mp h⟩
  · rintro ⟨k, hk, h⟩
    exact ⟨k, hk, (strIn_true_iff k (pyLower t)).mpr h⟩

/-- C8: in every reachable state of a probing phase, however many candidate
URLs there are, at most `SEM_MAX` fetches hold a semaphore slot at once; a
fetch acquires a slot before its request is issued and releases it on every
exit path, by the `acquire`/`release` transitions of the model. -/
theorem fetch_inflight_le_cap (n : Nat) (s : ProbePhase) (h : Reachable n s) :
    inFlight s ≤ SEM_MAX := by
  have hinv := semInvariant n s h
  omega

/-- C8 witness: a phase over 25 candidate URLs (more than the cap) after one
acquire step is reachable and within the cap. -/
theorem fetch_inflight_le_cap_witness :
    Reachable 25 ⟨(List.replicate 25 TaskState.idle).set 0 TaskState.running, SEM_MAX - 1⟩ ∧
    inFlight ⟨(List.replicate 25 TaskState.idle).set 0 TaskState.running, SEM_MAX - 1⟩
      ≤ SEM_MAX := by
  have hstep : SemStep (initPhase 25)
      ⟨(List.replicate 25 TaskState.idle).set 0 TaskState.running, SEM_MAX - 1⟩ :=
    SemStep.acquire (initPhase 25) 0 (by decide) (by decide)
  have hr : Reachable 25
      ⟨(List.replicate 25 TaskState.idle).set 0 TaskState.running, SEM_MAX - 1⟩ :=
    Relation.ReflTransGen.tail Relation.ReflTransGen.refl hstep
  exact ⟨hr, fetch_inflight_le_cap 25 _ hr⟩

/-- C9: discovery distributes the result budget evenly over the eight query
templates by integer division: the single search call of each template requests
exactly `B / len(templates)` results, which is zero for small budgets. -/
theorem budget_evenly_split (q : Str) (B : Nat) :
    (ddgCalls q B).map Prod.snd
      = List.replicate templates.length (B / templates.length) ∧
    (ddgCalls "x".data 7).map Prod.snd = List.replicate templates.length 0 := by
  exact ⟨rfl, rfl⟩

/-- C10: the snippet of every assembled row has at most 800 characters. -/
theorem snippet_bounded (soup : SoupModel) (http : HttpOracle) (now : Str)
    (domains : List Str) (row : Row) (h : row ∈ buildRows soup http now domains) :
    row.snippet.length ≤ 800 := by
  unfold buildRows at h
  rw [List.mem_flatMap] at h
  obtain ⟨d, _, h⟩ := h
  rw [List.mem_map] at h
  obtain ⟨fr, _, rfl⟩ := h
  show (mkRow soup now d fr).snippet.length ≤ 800
  unfold mkRow
  cases hd : soup.doc fr.body with
  | none => simp [hd]
  | some doc =>
    simp [hd, List.length_take]

/-- C10 witness: the row of the example probe obeys the snippet bound. -/
theorem snippet_bounded_witness :
    (mkRow soupPlain "t".data "acme.com".data
      ⟨"https://acme.com".data, 200, "x".data⟩).snippet.length ≤ 800 :=
  snippet_bounded soupPlain httpRoot "t".data ["acme.com".data] _ (by decide)
